import Mathlib

/-
Shallow embedding of `scripts/profile_events_nested.py` (lanegrid/agtrace).

The script profiles a corpus of JSON/JSONL records: for every field path it
accumulates an occurrence count, a per-type tally, bounded examples and
string-length statistics.  The embedding below translates the core
(`type_name`, `summarize_value`, `ensure_field_stats`, `update_field_stats`,
`walk_value`, and the record-processing / finalization part of
`profile_root`) into executable Lean definitions.  Python strings are
modelled as `List Char`, Python ints as `Int`/`Nat`, floats (the sample rate,
the random draws, coverage and average ratios) as `ℚ`, and the mutable
`field_stats` dict as an insertion-ordered association list.  File discovery
and parsing (`iter_records_from_file`, the CLI) are external collaborators
per the spec and are represented by the list of records handed to
`profile_root`.
-/

namespace Agtrace

/-- JSON values as processed by the profiler: null, bool, number (int or
float, collapsed into one constructor since the script only inspects the
type tag and never the numeric content), string, array, object (insertion
ordered). -/
inductive Json where
  | null
  | bool (b : Bool)
  | num (n : Int)
  | str (s : List Char)
  | arr (xs : List Json)
  | obj (kvs : List (List Char × Json))

instance : Inhabited Json := ⟨.null⟩

/-- Field paths, e.g. `a.b` or `messages[].content`, modelled as character
lists. -/
abbrev Path := List Char

/-- Constant `DEFAULT_MAX_EXAMPLES_PER_KEY` of the script. -/
def DEFAULT_MAX_EXAMPLES_PER_KEY : Nat := 5

/-- Constant `DEFAULT_MAX_STRING_EXAMPLE_LEN` of the script. -/
def DEFAULT_MAX_STRING_EXAMPLE_LEN : Nat := 200

/-- Constant `DEFAULT_MAX_DEPTH` of the script. -/
def DEFAULT_MAX_DEPTH : Int := 3

/-- Constant `DEFAULT_MAX_ARRAY_ITEMS` of the script. -/
def DEFAULT_MAX_ARRAY_ITEMS : Nat := 5

/-- Constant `MAX_OBJECT_KEYS_IN_SUMMARY` of the script. -/
def MAX_OBJECT_KEYS_IN_SUMMARY : Nat := 20

/-- Translation of `type_name` (lines 72-85).  The Python fallback branch
`type(value).__name__` is unreachable for JSON-typed input, which is the
only input the embedding's `Json` type represents. -/
def type_name : Json → List Char
  | .null => "null".data
  | .bool _ => "bool".data
  | .num _ => "number".data
  | .str _ => "string".data
  | .arr _ => "array".data
  | .obj _ => "object".data

/-- Decimal rendering of a natural number, most significant digit first;
models Python's rendering of the nonnegative int `len(v)` inside the
f-string on line 99. -/
def natRepr (n : Nat) : List Char :=
  if n = 0 then ['0'] else ((Nat.digits 10 n).map Nat.digitChar).reverse

/-- Fixed text preceding the original length in the truncation marker of
`summarize_value` (line 99). -/
def truncation_marker_head : List Char := "...(truncated, original_len=".data

/-- Truncation marker `...(truncated, original_len={L})` appended to
truncated string examples (line 99). -/
def truncation_marker (origLen : Nat) : List Char :=
  truncation_marker_head ++ natRepr origLen ++ [')']

/-- Result values of `summarize_value`: a (possibly truncated) string, the
fixed-shape array marker `{__kind__: "array", len, sample_type}`, the
fixed-shape object marker `{__kind__: "object", keys}`, or the value itself
(number / bool / null fallthrough). -/
inductive Summary where
  | str (s : List Char)
  | arrayMarker (len : Nat) (sample_type : Option (List Char))
  | objectMarker (keys : List (List Char))
  | raw (v : Json)

/-- Translation of `summarize_value` (lines 88-119). -/
def summarize_value (v : Json) (max_string_len : Nat) : Summary :=
  match v with
  | .str s =>
      if s.length ≤ max_string_len then .str s
      else .str (s.take max_string_len ++ truncation_marker s.length)
  | .arr xs =>
      let sample_type := match xs with
        | [] => none
        | x :: _ => some (type_name x)
      .arrayMarker xs.length sample_type
  | .obj kvs => .objectMarker ((kvs.map Prod.fst).take MAX_OBJECT_KEYS_IN_SUMMARY)
  | v => .raw v

/-- Decoder recovering the original length from a truncated string example:
skip the kept characters and the fixed marker text, drop the closing
parenthesis, and read the remaining decimal digits. -/
def decode_original_len (max_string_len : Nat) (out : List Char) : Nat :=
  Nat.ofDigits 10
    ((((out.drop (max_string_len + truncation_marker_head.length)).dropLast).map
      (fun c => c.toNat - 48)).reverse)

/-- The `string_length_stats` sub-accumulator (lines 134-139). -/
structure StringLengthStats where
  min : Option Nat
  max : Option Nat
  sum : Nat
  count : Nat
deriving DecidableEq

/-- One per-path field accumulator (lines 130-140). -/
structure FieldStats where
  count : Nat
  types : List (List Char × Nat)
  examples : List Summary
  string_length_stats : StringLengthStats

instance : Inhabited Summary := ⟨.raw .null⟩

/-- Default accumulator installed by `stats.setdefault` (lines 128-141). -/
def emptyFieldStats : FieldStats :=
  { count := 0, types := [], examples := [],
    string_length_stats := { min := none, max := none, sum := 0, count := 0 } }

instance : Inhabited FieldStats := ⟨emptyFieldStats⟩

/-- The accumulator store `field_stats`: a Python dict from path to
accumulator, modelled as an insertion-ordered association list. -/
abbrev Store := List (Path × FieldStats)

/-- Dict lookup on the store. -/
def lookupStats : Store → Path → Option FieldStats
  | [], _ => none
  | (p, fs) :: rest, path => if p = path then some fs else lookupStats rest path

/-- Dict in-place overwrite of an existing key (the mutation of the entry
returned by `setdefault`); keeps the key's position. -/
def setStats : Store → Path → FieldStats → Store
  | [], _, _ => []
  | (p, fs) :: rest, path, st =>
      if p = path then (path, st) :: rest else (p, fs) :: setStats rest path st

/-- `Counter` increment `st["types"][tag] += 1` (line 153): a missing tag
starts at 0 and is appended at the end, an existing tag is bumped in
place. -/
def incrCounter : List (List Char × Nat) → List Char → List (List Char × Nat)
  | [], tag => [(tag, 1)]
  | (t, n) :: rest, tag =>
      if t = tag then (t, n + 1) :: rest else (t, n) :: incrCounter rest tag

/-- Translation of `ensure_field_stats` (lines 124-141): the accumulator for
`path`, freshly defaulted when absent. -/
def ensure_field_stats (stats : Store) (path : Path) : FieldStats :=
  (lookupStats stats path).getD emptyFieldStats

/-- The string-length branch of `update_field_stats` (lines 156-164). -/
def update_string_length_stats (sls : StringLengthStats) (l : Nat) : StringLengthStats :=
  let mn := match sls.min with
    | none => some l
    | some m => if l < m then some l else some m
  let mx := match sls.max with
    | none => some l
    | some m => if m < l then some l else some m
  { min := mn, max := mx, sum := sls.sum + l, count := sls.count + 1 }

/-- Body of `update_field_stats` acting on the single accumulator returned
by `ensure_field_stats` (lines 151-168): bump the count, tally the type,
fold in the string length for strings, and append a bounded example. -/
def observe_entry (st : FieldStats) (value : Json)
    (max_examples_per_key max_string_example_len : Nat) : FieldStats :=
  let st1 := { st with count := st.count + 1,
                       types := incrCounter st.types (type_name value) }
  let st2 := match value with
    | .str s =>
        { st1 with string_length_stats :=
            update_string_length_stats st1.string_length_stats s.length }
    | _ => st1
  if st2.examples.length < max_examples_per_key then
    { st2 with examples := st2.examples ++ [summarize_value value max_string_example_len] }
  else st2

/-- Translation of `update_field_stats` (lines 144-168): mutate the
(possibly freshly created) accumulator of `path`; a fresh path is appended
at the end of the dict, an existing one keeps its position. -/
def update_field_stats (stats : Store) (path : Path) (value : Json)
    (max_examples_per_key max_string_example_len : Nat) : Store :=
  let st := observe_entry (ensure_field_stats stats path) value
      max_examples_per_key max_string_example_len
  match lookupStats stats path with
  | some _ => setStats stats path st
  | none => stats ++ [(path, st)]

/-- Whether a JSON value is a string (the `isinstance(value, str)` test of
line 156). -/
def is_string_value : Json → Bool
  | .str _ => true
  | _ => false

/-- Object child path `f"{path}.{k}" if path else k` (line 203). -/
def object_child_path (path : Path) (k : List Char) : Path :=
  if path = [] then k else path ++ '.' :: k

/-- Array child path `f"{path}[]" if path else "[]"` (line 218). -/
def array_child_path (path : Path) : Path :=
  if path = [] then '[' :: ']' :: [] else path ++ '[' :: ']' :: []

mutual

/-- Translation of `walk_value` (lines 171-231): profile `value` at `path`,
then descend into object members / array elements subject to the depth and
fan-out bounds. -/
def walk_value (stats : Store) (path : Path) (value : Json) (depth max_depth : Int)
    (max_examples_per_key max_string_example_len max_array_items : Nat) : Store :=
  if depth > max_depth then stats
  else
    let stats' := update_field_stats stats path value
        max_examples_per_key max_string_example_len
    match value with
    | .obj kvs =>
        if depth = max_depth then stats'
        else walk_fields stats' path kvs (depth + 1) max_depth
            max_examples_per_key max_string_example_len max_array_items
    | .arr xs =>
        if depth = max_depth then stats'
        else walk_elems stats' (array_child_path path) xs max_array_items (depth + 1)
            max_depth max_examples_per_key max_string_example_len max_array_items
    | _ => stats'

/-- The `for k, v in value.items()` loop of `walk_value` (lines 202-213);
`depth` is already the child depth. -/
def walk_fields (stats : Store) (path : Path) (kvs : List (List Char × Json))
    (depth max_depth : Int)
    (max_examples_per_key max_string_example_len max_array_items : Nat) : Store :=
  match kvs with
  | [] => stats
  | (k, v) :: rest =>
      walk_fields
        (walk_value stats (object_child_path path k) v depth max_depth
          max_examples_per_key max_string_example_len max_array_items)
        path rest depth max_depth
        max_examples_per_key max_string_example_len max_array_items

/-- The `for i, elem in enumerate(value)` loop of `walk_value`
(lines 219-231); `remaining` counts down from `max_array_items`, mirroring
the `if i >= max_array_items: break` guard; `depth` is already the child
depth. -/
def walk_elems (stats : Store) (child_path : Path) (xs : List Json) (remaining : Nat)
    (depth max_depth : Int)
    (max_examples_per_key max_string_example_len max_array_items : Nat) : Store :=
  match xs, remaining with
  | [], _ => stats
  | _ :: _, 0 => stats
  | x :: rest, r + 1 =>
      walk_elems
        (walk_value stats child_path x depth max_depth
          max_examples_per_key max_string_example_len max_array_items)
        child_path rest r depth max_depth
        max_examples_per_key max_string_example_len max_array_items

end

/-- The recursion part of `walk_value` in isolation (lines 198-231): given a
store to which the node's own observation has already been applied, descend
into the children (or not, at the depth limit / for scalars). -/
def walk_children (stats : Store) (path : Path) (value : Json) (depth max_depth : Int)
    (max_examples_per_key max_string_example_len max_array_items : Nat) : Store :=
  match value with
  | .obj kvs =>
      if depth = max_depth then stats
      else walk_fields stats path kvs (depth + 1) max_depth
          max_examples_per_key max_string_example_len max_array_items
  | .arr xs =>
      if depth = max_depth then stats
      else walk_elems stats (array_child_path path) xs max_array_items (depth + 1)
          max_depth max_examples_per_key max_string_example_len max_array_items
  | _ => stats

/-- One record: a top-level JSON object, i.e. its ordered key/value pairs. -/
abbrev Record := List (Path × Json)

/-- The `for k, v in record.items(): walk_value(...)` loop of `profile_root`
(lines 264-274): every top-level key is walked starting at depth 0 with the
key itself as the path. -/
def walk_record (stats : Store) (record : Record) (max_depth : Int)
    (max_examples_per_key max_string_example_len max_array_items : Nat) : Store :=
  record.foldl
    (fun st kv => walk_value st kv.1 kv.2 0 max_depth
      max_examples_per_key max_string_example_len max_array_items)
    stats

/-- Mutable state of the record loop of `profile_root`: the accumulator
store and the two counters (lines 242-244). -/
structure ProfileAcc where
  stats : Store
  total_records : Nat
  total_records_seen : Nat
deriving Inhabited

/-- One iteration of the record loop of `profile_root` (lines 252-274):
count the record as seen, sample it out when `sample_rate < 1.0` and the
uniform draw exceeds the rate, otherwise count it and walk its top-level
keys.  `draws i` is the value `random.random()` would return for the i-th
record seen (the draw is only consumed when `sample_rate < 1.0`). -/
def process_record (sample_rate : ℚ) (draws : Nat → ℚ) (max_depth : Int)
    (max_examples_per_key max_string_example_len max_array_items : Nat)
    (acc : ProfileAcc) (record : Record) : ProfileAcc :=
  let seen := acc.total_records_seen
  if sample_rate < 1 ∧ draws seen > sample_rate then
    { acc with total_records_seen := seen + 1 }
  else
    { stats := walk_record acc.stats record max_depth
        max_examples_per_key max_string_example_len max_array_items,
      total_records := acc.total_records + 1,
      total_records_seen := seen + 1 }

/-- The whole record loop of `profile_root` over the record sequence
supplied by the (external) record source. -/
def profile_records (records : List Record) (draws : Nat → ℚ) (sample_rate : ℚ)
    (max_depth : Int)
    (max_examples_per_key max_string_example_len max_array_items : Nat) : ProfileAcc :=
  records.foldl
    (process_record sample_rate draws max_depth
      max_examples_per_key max_string_example_len max_array_items)
    { stats := [], total_records := 0, total_records_seen := 0 }

/-- Finalized `string_length_stats` of one path (lines 291-296). -/
structure StringLengthReport where
  min : Option Nat
  max : Option Nat
  avg : Option ℚ
  count : Nat

/-- Finalized per-path report (lines 286-297). -/
structure FieldReport where
  count : Nat
  coverage : ℚ
  types : List (List Char × Nat)
  examples : List Summary
  string_length_stats : StringLengthReport

/-- The statistics finalizer for one path (lines 277-297): coverage ratio
(0.0 on an empty corpus) and average string length (absent when no string
was seen). -/
def finalize_field (total_records : Nat) (st : FieldStats) : FieldReport :=
  { count := st.count,
    coverage := if total_records > 0 then (st.count : ℚ) / (total_records : ℚ) else 0,
    types := st.types,
    examples := st.examples,
    string_length_stats :=
      { min := st.string_length_stats.min,
        max := st.string_length_stats.max,
        avg := if st.string_length_stats.count > 0 then
            some ((st.string_length_stats.sum : ℚ) / (st.string_length_stats.count : ℚ))
          else none,
        count := st.string_length_stats.count } }

/-- An all-zero field report, used only as a `getD` fallback in concrete
statements. -/
def defaultFieldReport : FieldReport :=
  { count := 0, coverage := 0, types := [], examples := [],
    string_length_stats := { min := none, max := none, avg := none, count := 0 } }

/-- The profile result (lines 299-306). -/
structure ProfileResult where
  total_records : Nat
  total_records_seen : Nat
  sample_rate : ℚ
  max_depth : Int
  max_array_items : Nat
  keys : List (Path × FieldReport)

/-- Translation of `profile_root` (lines 234-306) over the record sequence
produced by the external record source (file discovery and parsing are
out-of-scope collaborators per the spec). -/
def profile_root (records : List Record) (draws : Nat → ℚ) (sample_rate : ℚ)
    (max_depth : Int)
    (max_examples_per_key max_string_example_len max_array_items : Nat) : ProfileResult :=
  let acc := profile_records records draws sample_rate max_depth
      max_examples_per_key max_string_example_len max_array_items
  { total_records := acc.total_records,
    total_records_seen := acc.total_records_seen,
    sample_rate := sample_rate,
    max_depth := max_depth,
    max_array_items := max_array_items,
    keys := acc.stats.map (fun pst => (pst.1, finalize_field acc.total_records pst.2)) }

/-- Dict lookup on the finalized `keys` mapping. -/
def lookupReport : List (Path × FieldReport) → Path → Option FieldReport
  | [], _ => none
  | (p, r) :: rest, path => if p = path then some r else lookupReport rest path

/-- Substring test on character lists (needle occurs contiguously in the
haystack). -/
def containsSub (needle : List Char) : List Char → Bool
  | [] => needle.isEmpty
  | c :: rest => needle.isPrefixOf (c :: rest) || containsSub needle rest

/-- A path is clean when it contains neither the separator character nor
the array-element brackets introduced by the walk. -/
def path_clean (p : Path) : Prop :=
  '.' ∉ p ∧ containsSub ('[' :: ']' :: []) p = false

instance (p : Path) : Decidable (path_clean p) := by
  unfold path_clean; infer_instance

/-- The string-length-stats predicate exactly as the claim states it:
min/max are null precisely when the counter is zero, and when the counter
is positive the extremes bracket the sum. -/
def sls_claim_inv (s : StringLengthStats) : Prop :=
  (s.min = none ↔ s.count = 0) ∧ (s.max = none ↔ s.count = 0) ∧
  (∀ mn mx, s.min = some mn → s.max = some mx →
    mn ≤ mx ∧ mn * s.count ≤ s.sum ∧ s.sum ≤ mx * s.count)

/-- The inductive strengthening of `sls_claim_inv`: additionally, a zero
counter forces a zero sum. -/
def sls_inv (s : StringLengthStats) : Prop :=
  sls_claim_inv s ∧ (s.count = 0 → s.sum = 0)

/-! ### Basic unfolding lemmas for the walk -/

/-- Below the entry guard, `walk_value` is the observation of the node
followed by `walk_children` on the updated store. -/
theorem walk_value_eq_walk_children (stats : Store) (path : Path) (value : Json)
    (depth max_depth : Int) (a b c : Nat) (h : ¬ depth > max_depth) :
    walk_value stats path value depth max_depth a b c
      = walk_children (update_field_stats stats path value a b) path value depth
          max_depth a b c := by
  unfold walk_value walk_children
  rw [if_neg h]

/-- At the depth limit, `walk_children` descends into nothing. -/
theorem walk_children_at_limit (stats : Store) (path : Path) (value : Json)
    (depth : Int) (a b c : Nat) :
    walk_children stats path value depth depth a b c = stats := by
  cases value <;> simp [walk_children]

/-- C3: calling the walk with `depth == max_depth` records exactly the one
observation of the value at the path (the full accumulator update: count,
type tally, string stats, bounded example) and recurses into no child; and
whenever `depth ≤ max_depth` the walk is the observation of the node first,
with all recursion running on the already-updated store. -/
theorem walk_observes_before_recursion (stats : Store) (path : Path) (value : Json)
    (depth max_depth : Int) (a b c : Nat) :
    (depth = max_depth →
      walk_value stats path value depth max_depth a b c
        = update_field_stats stats path value a b)
    ∧ (depth ≤ max_depth →
      walk_value stats path value depth max_depth a b c
        = walk_children (update_field_stats stats path value a b) path value depth
            max_depth a b c) := by
  constructor
  · intro h
    subst h
    rw [walk_value_eq_walk_children _ _ _ _ _ _ _ _ (by omega), walk_children_at_limit]
  · intro h
    exact walk_value_eq_walk_children _ _ _ _ _ _ _ _ (by omega)

/-- Witness for C3 at a concrete object value and depths 2 = 2 and 1 ≤ 2. -/
theorem walk_observes_before_recursion_witness :
    (walk_value [] ['k'] (Json.obj [(['x'], Json.null)]) 2 2 5 200 5
       = update_field_stats [] ['k'] (Json.obj [(['x'], Json.null)]) 5 200)
    ∧ (walk_value [] ['k'] (Json.obj [(['x'], Json.null)]) 1 2 5 200 5
       = walk_children (update_field_stats [] ['k'] (Json.obj [(['x'], Json.null)]) 5 200)
           ['k'] (Json.obj [(['x'], Json.null)]) 1 2 5 200 5) :=
  ⟨(walk_observes_before_recursion [] ['k'] (Json.obj [(['x'], Json.null)]) 2 2 5 200 5).1 rfl,
   (walk_observes_before_recursion [] ['k'] (Json.obj [(['x'], Json.null)]) 1 2 5 200 5).2
     (by decide)⟩

/-- C9: calling the walk with `max_depth < depth` (e.g. a negative
`max_depth` at the top-level entry depth 0) returns the store completely
unchanged: no entry is created and none is modified. -/
theorem walk_beyond_max_depth_frame (stats : Store) (path : Path) (value : Json)
    (depth max_depth : Int) (a b c : Nat) (h : max_depth < depth) :
    walk_value stats path value depth max_depth a b c = stats := by
  unfold walk_value
  rw [if_pos (by omega)]

/-- Witness for C9: a negative `max_depth` at entry depth 0 leaves a
nonempty store untouched. -/
theorem walk_beyond_max_depth_frame_witness :
    walk_value [(['q'], emptyFieldStats)] ['p'] Json.null 0 (-1) 5 200 5
      = [(['q'], emptyFieldStats)] :=
  walk_beyond_max_depth_frame [(['q'], emptyFieldStats)] ['p'] Json.null 0 (-1) 5 200 5
    (by decide)

/-- C8: summarizing an array yields only the fixed-shape marker with the
kind tag, the array length and the type tag of the first element (absent
for the empty array) — never an original element; summarizing an object
yields only the kind tag and the first 20 keys in iteration order — never
an original value. -/
theorem summarize_compound_erasure (max_string_len : Nat) (xs : List Json)
    (kvs : List (List Char × Json)) :
    summarize_value (.arr xs) max_string_len
      = .arrayMarker xs.length (xs.head?.map type_name)
    ∧ summarize_value (.obj kvs) max_string_len
      = .objectMarker ((kvs.map Prod.fst).take 20) := by
  constructor
  · cases xs <;> rfl
  · rfl

/-! ### String truncation round-trip -/

/-- Reading the decimal rendering of a natural number back as base-10
digits recovers the number. -/
theorem natRepr_roundtrip (n : Nat) :
    Nat.ofDigits 10 (((natRepr n).map (fun c => c.toNat - 48)).reverse) = n := by
  by_cases h : n = 0
  · subst h
    decide
  · unfold natRepr
    rw [if_neg h, List.map_reverse, List.reverse_reverse, List.map_map]
    have hd : ∀ d ∈ Nat.digits 10 n,
        ((fun c => c.toNat - 48) ∘ Nat.digitChar) d = id d := by
      intro d hdm
      have hlt : d < 10 := Nat.digits_lt_base (by norm_num) hdm
      interval_cases d <;> rfl
    rw [List.map_congr_left hd, List.map_id, Nat.ofDigits_digits]

/-- Decoding a truncated example recovers the encoded original length,
whatever the kept characters were. -/
theorem decode_truncation_marker (pre : List Char) (origLen max_string_len : Nat)
    (hpre : pre.length = max_string_len) :
    decode_original_len max_string_len (pre ++ truncation_marker origLen) = origLen := by
  unfold decode_original_len
  rw [show pre ++ truncation_marker origLen
      = (pre ++ truncation_marker_head) ++ (natRepr origLen ++ [')']) by
    simp [truncation_marker, List.append_assoc]]
  rw [show max_string_len + truncation_marker_head.length
      = (pre ++ truncation_marker_head).length by simp [hpre]]
  rw [List.drop_left, List.dropLast_concat, natRepr_roundtrip]

/-- C4: a string no longer than `max_string_len` is summarized unchanged;
a longer string is summarized as its first `max_string_len` characters
followed by the truncation marker, from which the exact original length is
recovered by `decode_original_len`. -/
theorem summarize_string_truncation_roundtrip (s : List Char) (max_string_len : Nat) :
    (s.length ≤ max_string_len →
      summarize_value (.str s) max_string_len = .str s)
    ∧ (max_string_len < s.length →
      summarize_value (.str s) max_string_len
        = .str (s.take max_string_len ++ truncation_marker s.length)
      ∧ decode_original_len max_string_len
          (s.take max_string_len ++ truncation_marker s.length) = s.length) := by
  constructor
  · intro h
    simp [summarize_value, h]
  · intro h
    refine ⟨by simp [summarize_value, Nat.not_le.2 h], ?_⟩
    exact decode_truncation_marker _ _ _ (by simp [List.length_take, Nat.min_eq_left h.le])

/-- Witness for C4 on the five-character string `hello` with limits 10
(kept unchanged) and 3 (truncated; length 5 recovered). -/
theorem summarize_string_truncation_roundtrip_witness :
    (summarize_value (.str ['h','e','l','l','o']) 10 = .str ['h','e','l','l','o'])
    ∧ (summarize_value (.str ['h','e','l','l','o']) 3
        = .str (List.take 3 ['h','e','l','l','o'] ++ truncation_marker 5)
      ∧ decode_original_len 3 (List.take 3 ['h','e','l','l','o'] ++ truncation_marker 5) = 5) :=
  ⟨(summarize_string_truncation_roundtrip ['h','e','l','l','o'] 10).1 (by decide),
   (summarize_string_truncation_roundtrip ['h','e','l','l','o'] 3).2 (by decide)⟩

/-! ### Store lemmas and the depth-zero path set -/

/-- A successful store lookup exhibits a member. -/
theorem lookupStats_mem {stats : Store} {path : Path} {fs : FieldStats}
    (h : lookupStats stats path = some fs) : (path, fs) ∈ stats := by
  induction stats with
  | nil => simp [lookupStats] at h
  | cons e rest ih =>
      obtain ⟨p, fs'⟩ := e
      simp only [lookupStats] at h
      split at h
      · next hp =>
          subst hp
          injection h with h
          subst h
          exact List.mem_cons_self _ _
      · exact List.mem_cons_of_mem _ (ih h)

/-- Overwriting an existing key leaves the key sequence of the store
unchanged. -/
theorem setStats_map_fst (stats : Store) (path : Path) (st : FieldStats) :
    (setStats stats path st).map Prod.fst = stats.map Prod.fst := by
  induction stats with
  | nil => rfl
  | cons e rest ih =>
      obtain ⟨p, fs'⟩ := e
      simp only [setStats]
      split
      · next hp => simp [hp]
      · simp [ih]

/-- Members of the store after an overwrite: the new binding or an old
member. -/
theorem mem_setStats {stats : Store} {path q : Path} {st fs : FieldStats}
    (h : (q, fs) ∈ setStats stats path st) :
    (q = path ∧ fs = st) ∨ (q, fs) ∈ stats := by
  induction stats with
  | nil => simp [setStats] at h
  | cons e rest ih =>
      obtain ⟨p, fs'⟩ := e
      simp only [setStats] at h
      split at h
      · rcases List.mem_cons.1 h with h | h
        · injection h with h1 h2
          exact Or.inl ⟨h1, h2⟩
        · exact Or.inr (List.mem_cons_of_mem _ h)
      · rcases List.mem_cons.1 h with h | h
        · exact Or.inr (h ▸ List.mem_cons_self _ _)
        · rcases ih h with h | h
          · exact Or.inl h
          · exact Or.inr (List.mem_cons_of_mem _ h)

/-- The accumulator update adds exactly the updated path to the key set. -/
theorem update_map_fst_mem_iff (stats : Store) (path : Path) (value : Json)
    (a b : Nat) (q : Path) :
    q ∈ (update_field_stats stats path value a b).map Prod.fst
      ↔ q = path ∨ q ∈ stats.map Prod.fst := by
  unfold update_field_stats
  cases hl : lookupStats stats path with
  | none =>
      simp only [List.map_append, List.map_cons, List.map_nil, List.mem_append,
        List.mem_cons, List.not_mem_nil, or_false]
      tauto
  | some st0 =>
      simp only [setStats_map_fst]
      constructor
      · exact Or.inr
      · rintro (rfl | h)
        · exact List.mem_map_of_mem Prod.fst (lookupStats_mem hl)
        · exact h

/-- With `max_depth = 0` the walk of a value at entry depth 0 is the single
observation of the value. -/
theorem walk_value_depth_zero_limit (stats : Store) (path : Path) (value : Json)
    (a b c : Nat) :
    walk_value stats path value 0 0 a b c = update_field_stats stats path value a b := by
  rw [walk_value_eq_walk_children _ _ _ _ _ _ _ _ (by omega), walk_children_at_limit]

/-- With `max_depth = 0`, walking a record only ever touches the record's
top-level keys as paths. -/
theorem walk_record_zero_paths (record : Record) (a b c : Nat) :
    ∀ (stats : Store) (q : Path),
      q ∈ (walk_record stats record 0 a b c).map Prod.fst
        ↔ q ∈ stats.map Prod.fst ∨ q ∈ record.map Prod.fst := by
  induction record with
  | nil => intro stats q; simp [walk_record]
  | cons kv rest ih =>
      intro stats q
      obtain ⟨k, v⟩ := kv
      have hstep : walk_record stats ((k, v) :: rest) 0 a b c
          = walk_record (walk_value stats k v 0 0 a b c) rest 0 a b c := rfl
      rw [hstep, walk_value_depth_zero_limit, ih, update_map_fst_mem_iff]
      simp only [List.map_cons, List.mem_cons]
      tauto

/-- C1 (corrected): processing one record with `max_depth = 0` from an
empty store creates exactly the record's top-level keys as paths; and as
long as no top-level key itself contains `'.'` or the substring `[]`, no
created path does.  (The unconditional second half of the original claim
fails: see the counterexample, a key that itself contains `'.'`.) -/
theorem depth_zero_paths_eq_top_level_keys (record : Record) (a b c : Nat) :
    (∀ q, q ∈ (walk_record [] record 0 a b c).map Prod.fst ↔ q ∈ record.map Prod.fst)
    ∧ ((∀ k, k ∈ record.map Prod.fst → path_clean k) →
        ∀ q, q ∈ (walk_record [] record 0 a b c).map Prod.fst → path_clean q) := by
  have hp : ∀ q, q ∈ (walk_record [] record 0 a b c).map Prod.fst
      ↔ q ∈ record.map Prod.fst := by
    intro q
    rw [walk_record_zero_paths]
    simp
  refine ⟨hp, ?_⟩
  intro hclean q hq
  exact hclean q ((hp q).1 hq)

/-- Counterexample to the literal C1: the record whose single top-level key
is `a.b` creates, at `max_depth = 0`, the store path `a.b`, which contains
the character `'.'`. -/
theorem depth_zero_dot_path_cex :
    (['a','.','b'] ∈ (walk_record [] [(['a','.','b'], Json.null)] 0 5 200 5).map Prod.fst)
    ∧ '.' ∈ (['a','.','b'] : List Char) := by
  decide

/-- Witness for C1 on the record with the single clean key `x`. -/
theorem depth_zero_paths_eq_top_level_keys_witness :
    (['x'] ∈ (walk_record [] [(['x'], Json.null)] 0 5 200 5).map Prod.fst
       ↔ ['x'] ∈ ([(['x'], Json.null)] : Record).map Prod.fst)
    ∧ path_clean ['x'] :=
  ⟨(depth_zero_paths_eq_top_level_keys [(['x'], Json.null)] 5 200 5).1 ['x'],
   (depth_zero_paths_eq_top_level_keys [(['x'], Json.null)] 5 200 5).2 (by decide) ['x']
     (by decide)⟩

/-! ### Arrays: path collapsing and fan-out -/

/-- The array child path is always the parent path with `[]` appended (the
empty-path special case coincides with the append). -/
theorem array_child_path_eq (path : Path) :
    array_child_path path = path ++ '[' :: ']' :: [] := by
  unfold array_child_path
  split
  · simp [*]
  · rfl

/-- Walking a number records the observation and nothing else (below the
entry guard). -/
theorem walk_value_num (stats : Store) (path : Path) (n : Int)
    (depth max_depth : Int) (a b c : Nat) :
    walk_value stats path (.num n) depth max_depth a b c
      = if depth > max_depth then stats
        else update_field_stats stats path (.num n) a b := by
  by_cases h : depth > max_depth
  · unfold walk_value
    rw [if_pos h]
  · unfold walk_value
    rw [if_neg h]

/-- Strictly below the depth limit, walking an array is the node's own
observation followed by the element loop on the single child path. -/
theorem walk_value_arr_lt (stats : Store) (path : Path) (xs : List Json)
    (depth max_depth : Int) (a b c : Nat) (h : depth < max_depth) :
    walk_value stats path (.arr xs) depth max_depth a b c
      = walk_elems (update_field_stats stats path (.arr xs) a b)
          (array_child_path path) xs c (depth + 1) max_depth a b c := by
  rw [walk_value_eq_walk_children _ _ _ _ _ _ _ _ (by omega)]
  simp only [walk_children]
  rw [if_neg (by omega)]

/-- The element loop walks exactly the first `remaining` elements, in
order. -/
theorem walk_elems_take (child_path : Path) (depth max_depth : Int) (a b c : Nat) :
    ∀ (xs : List Json) (stats : Store) (remaining : Nat),
      walk_elems stats child_path xs remaining depth max_depth a b c
        = (xs.take remaining).foldl
            (fun st x => walk_value st child_path x depth max_depth a b c) stats := by
  intro xs
  induction xs with
  | nil => intro stats remaining; cases remaining <;> simp [walk_elems]
  | cons x rest ih =>
      intro stats remaining
      cases remaining with
      | zero => simp [walk_elems]
      | succ r => simp [walk_elems, ih]

/-- C6: an array reached strictly below the depth limit funnels all its
traversed elements into the single child path `path ++ "[]"` (indices are
erased); in particular the record `{"a": [1,2,3]}` with any `max_depth ≥ 1`
and otherwise default limits yields exactly the two paths `a` and `a[]`,
and `a[]` has count 3. -/
theorem array_path_collapsing (stats : Store) (path : Path) (xs : List Json)
    (depth max_depth : Int) (a b c : Nat) :
    (depth < max_depth →
      walk_value stats path (.arr xs) depth max_depth a b c
        = walk_elems (update_field_stats stats path (.arr xs) a b)
            (path ++ '[' :: ']' :: []) xs c (depth + 1) max_depth a b c)
    ∧ (∀ md : Int, 1 ≤ md →
        ((walk_record [] [(['a'], Json.arr [.num 1, .num 2, .num 3])] md 5 200 5).map Prod.fst
           = [['a'], ['a','[',']']])
        ∧ ((lookupStats (walk_record [] [(['a'], Json.arr [.num 1, .num 2, .num 3])] md 5 200 5)
             ('a' :: '[' :: ']' :: [])).map FieldStats.count = some 3)) := by
  constructor
  · intro h
    rw [walk_value_arr_lt _ _ _ _ _ _ _ _ h, array_child_path_eq]
  · intro md hmd
    have hrec : walk_record [] [(['a'], Json.arr [.num 1, .num 2, .num 3])] md 5 200 5
        = walk_value [] ['a'] (Json.arr [.num 1, .num 2, .num 3]) 0 md 5 200 5 := rfl
    have h1 : ¬ ((0:Int) + 1 > md) := by omega
    rw [hrec, walk_value_arr_lt _ _ _ _ _ _ _ _ (by omega)]
    simp only [walk_elems, walk_value_num, h1, if_false]
    decide

/-- Witness for C6: the general equation at depth 0 with limit 1, and the
concrete record at `max_depth = 1`. -/
theorem array_path_collapsing_witness :
    (walk_value [] ['a'] (Json.arr [.num 7]) 0 1 5 200 5
       = walk_elems (update_field_stats [] ['a'] (Json.arr [.num 7]) 5 200)
           (['a'] ++ '[' :: ']' :: []) [.num 7] 5 1 1 5 200 5)
    ∧ ((walk_record [] [(['a'], Json.arr [.num 1, .num 2, .num 3])] 1 5 200 5).map Prod.fst
         = [['a'], ['a','[',']']])
    ∧ ((lookupStats (walk_record [] [(['a'], Json.arr [.num 1, .num 2, .num 3])] 1 5 200 5)
         ('a' :: '[' :: ']' :: [])).map FieldStats.count = some 3) :=
  ⟨(array_path_collapsing [] ['a'] [.num 7] 0 1 5 200 5).1 (by decide),
   ((array_path_collapsing [] ['a'] [] 0 0 5 200 5).2 1 (by decide)).1,
   ((array_path_collapsing [] ['a'] [] 0 0 5 200 5).2 1 (by decide)).2⟩

/-- C7: the element loop of the walk traverses exactly the first
`min(length, max_array_items)` elements of an array instance and skips the
rest entirely; in particular with `max_array_items = 2` a 5-element array
contributes exactly 2 observations to the child path. -/
theorem array_fanout_bound (stats : Store) (path child_path : Path) (xs : List Json)
    (remaining : Nat) (depth max_depth : Int) (a b c : Nat) :
    (walk_elems stats child_path xs remaining depth max_depth a b c
      = (xs.take remaining).foldl
          (fun st x => walk_value st child_path x depth max_depth a b c) stats)
    ∧ ((xs.take remaining).length = Min.min xs.length remaining)
    ∧ (depth < max_depth →
        walk_value stats path (.arr xs) depth max_depth a b c
          = (xs.take c).foldl
              (fun st x => walk_value st (array_child_path path) x (depth + 1) max_depth a b c)
              (update_field_stats stats path (.arr xs) a b))
    ∧ ((lookupStats (walk_record []
          [(['a'], Json.arr [.num 1, .num 2, .num 3, .num 4, .num 5])] 1 5 200 2)
          ('a' :: '[' :: ']' :: [])).map FieldStats.count = some 2) := by
  refine ⟨walk_elems_take _ _ _ _ _ _ _ _ _, ?_, ?_, ?_⟩
  · rw [List.length_take]
    omega
  · intro h
    rw [walk_value_arr_lt _ _ _ _ _ _ _ _ h, walk_elems_take]
  · decide

/-- Witness for C7: the depth-guarded conjunct at a concrete array below
the limit. -/
theorem array_fanout_bound_witness :
    walk_value [] ['a'] (Json.arr [.num 1, .num 2, .num 3, .num 4, .num 5]) 0 1 5 200 2
      = (([Json.num 1, .num 2, .num 3, .num 4, .num 5].take 2).foldl
          (fun st x => walk_value st (array_child_path ['a']) x (0 + 1) 1 5 200 2)
          (update_field_stats [] ['a']
            (Json.arr [.num 1, .num 2, .num 3, .num 4, .num 5]) 5 200)) :=
  (array_fanout_bound [] ['a'] ['a']
    [Json.num 1, .num 2, .num 3, .num 4, .num 5] 2 0 1 5 200 2).2.2.1 (by decide)

/-! ### Sampling at the extreme rates -/

/-- Looking a path up in the finalized `keys` mapping is looking it up in
the accumulator store and finalizing. -/
theorem lookupReport_map_finalize (stats : Store) (total : Nat) (p : Path) :
    lookupReport (stats.map (fun pst => (pst.1, finalize_field total pst.2))) p
      = (lookupStats stats p).map (finalize_field total) := by
  induction stats with
  | nil => rfl
  | cons e rest ih =>
      obtain ⟨q, fs⟩ := e
      by_cases hq : q = p
      · simp [lookupReport, lookupStats, hq]
      · simp [lookupReport, lookupStats, hq, ih]

/-- When the rate is not below 1, the skip branch is dead: the two record
counters advance in lockstep. -/
theorem process_foldl_counts (sample_rate : ℚ) (draws : Nat → ℚ) (max_depth : Int)
    (a b c : Nat) (hr : ¬ sample_rate < 1) :
    ∀ (records : List Record) (acc : ProfileAcc),
      acc.total_records = acc.total_records_seen →
      (records.foldl (process_record sample_rate draws max_depth a b c) acc).total_records
        = (records.foldl (process_record sample_rate draws max_depth a b c) acc).total_records_seen := by
  intro records
  induction records with
  | nil => intro acc h; exact h
  | cons r rest ih =>
      intro acc h
      rw [List.foldl_cons]
      apply ih
      unfold process_record
      rw [if_neg (fun hc => hr hc.1)]
      simp [h]

/-- With rate 0 and strictly positive draws, every record is skipped: the
post-sampling counter and the store never change. -/
theorem process_foldl_rate_zero (draws : Nat → ℚ) (max_depth : Int) (a b c : Nat)
    (hd : ∀ i, 0 < draws i) :
    ∀ (records : List Record) (acc : ProfileAcc),
      (records.foldl (process_record 0 draws max_depth a b c) acc).total_records
        = acc.total_records
      ∧ (records.foldl (process_record 0 draws max_depth a b c) acc).stats = acc.stats := by
  intro records
  induction records with
  | nil => intro acc; exact ⟨rfl, rfl⟩
  | cons r rest ih =>
      intro acc
      rw [List.foldl_cons]
      have hcond : (0:ℚ) < 1 ∧ draws acc.total_records_seen > 0 := ⟨by norm_num, hd _⟩
      unfold process_record
      rw [if_pos hcond]
      exact ih _

/-- C2 (corrected): with `sample_rate = 1.0` the profiler always reports
`total_records = total_records_seen` (no draw is even consumed); with
`sample_rate = 0.0` it reports `total_records = 0` — and hence coverage 0.0
for every path — provided every random draw is strictly positive.  (The
unconditional rate-0 half of the original claim fails: `random.random()`
may return exactly 0.0, and `0.0 > 0.0` is false, so such a record is
kept; see the counterexample.) -/
theorem sampling_rate_extremes (records : List Record) (draws : Nat → ℚ)
    (max_depth : Int) (a b c : Nat) :
    ((profile_root records draws 1 max_depth a b c).total_records
       = (profile_root records draws 1 max_depth a b c).total_records_seen)
    ∧ ((∀ i, 0 < draws i) →
        (profile_root records draws 0 max_depth a b c).total_records = 0
        ∧ ∀ (p : Path) (r : FieldReport),
            lookupReport (profile_root records draws 0 max_depth a b c).keys p = some r →
            r.coverage = 0) := by
  constructor
  · exact process_foldl_counts 1 draws max_depth a b c (by norm_num) records
      { stats := [], total_records := 0, total_records_seen := 0 } rfl
  · intro hd
    have h0 := process_foldl_rate_zero draws max_depth a b c hd records
      { stats := [], total_records := 0, total_records_seen := 0 }
    refine ⟨h0.1, ?_⟩
    intro p r hr
    have hkeys : lookupReport (profile_root records draws 0 max_depth a b c).keys p
        = (lookupStats (profile_records records draws 0 max_depth a b c).stats p).map
            (finalize_field (profile_records records draws 0 max_depth a b c).total_records) :=
      lookupReport_map_finalize _ _ _
    rw [hkeys] at hr
    rcases Option.map_eq_some'.1 hr with ⟨fs, _, hrfl⟩
    rw [← hrfl]
    have ht : (profile_records records draws 0 max_depth a b c).total_records = 0 := h0.1
    rw [ht]
    simp [finalize_field]

/-- Counterexample to the literal C2: a draw of exactly 0 — a legal value
of `random.random()`, which ranges over [0, 1) — is not skipped at
`sample_rate = 0.0`, so one record yields `total_records = 1`, not 0. -/
theorem sampling_rate_zero_cex :
    (0:ℚ) ≤ 0 ∧ (0:ℚ) < 1
    ∧ (profile_root [[(['x'], Json.null)]] (fun _ => 0) 0 3 5 200 5).total_records = 1 := by
  decide

/-- Witness for C2 with one record and the constant positive draw 1/2. -/
theorem sampling_rate_extremes_witness :
    ((profile_root [[(['x'], Json.null)]] (fun _ => (1:ℚ)/2) 1 3 5 200 5).total_records
       = (profile_root [[(['x'], Json.null)]] (fun _ => (1:ℚ)/2) 1 3 5 200 5).total_records_seen)
    ∧ (profile_root [[(['x'], Json.null)]] (fun _ => (1:ℚ)/2) 0 3 5 200 5).total_records = 0 :=
  ⟨(sampling_rate_extremes [[(['x'], Json.null)]] (fun _ => (1:ℚ)/2) 3 5 200 5).1,
   ((sampling_rate_extremes [[(['x'], Json.null)]] (fun _ => (1:ℚ)/2) 3 5 200 5).2
      (fun _ => by norm_num)).1⟩

/-! ### Preservation of store invariants through the walk -/

/-- Every member of an updated store is an old member or the freshly
observed entry of the updated path. -/
theorem mem_update_field_stats {stats : Store} {path q : Path} {value : Json}
    {a b : Nat} {fs : FieldStats}
    (h : (q, fs) ∈ update_field_stats stats path value a b) :
    (q, fs) ∈ stats ∨ fs = observe_entry (ensure_field_stats stats path) value a b := by
  unfold update_field_stats at h
  cases hl : lookupStats stats path with
  | some st0 =>
      rw [hl] at h
      rcases mem_setStats h with ⟨_, hfs⟩ | h
      · exact Or.inr hfs
      · exact Or.inl h
  | none =>
      rw [hl] at h
      rcases List.mem_append.1 h with h | h
      · exact Or.inl h
      · simp only [List.mem_cons, List.not_mem_nil, or_false] at h
        injection h with _ h2
        exact Or.inr h2

/-- A per-entry property closed under `observe_entry` and true of the
default entry is preserved by the accumulator update. -/
theorem update_field_stats_entry_pres (P : FieldStats → Prop) {stats : Store}
    (path : Path) (value : Json) (a b : Nat)
    (hobs : ∀ st v, P st → P (observe_entry st v a b))
    (hemp : P emptyFieldStats)
    (h : ∀ q fs, (q, fs) ∈ stats → P fs) :
    ∀ q fs, (q, fs) ∈ update_field_stats stats path value a b → P fs := by
  intro q fs hm
  rcases mem_update_field_stats hm with hm | rfl
  · exact h _ _ hm
  · have hens : P (ensure_field_stats stats path) := by
      unfold ensure_field_stats
      cases hl : lookupStats stats path with
      | some st0 => simpa using h _ _ (lookupStats_mem hl)
      | none => simpa using hemp
    exact hobs _ _ hens

mutual

/-- A store property closed under arbitrary accumulator updates is
preserved by `walk_value`. -/
theorem walk_value_pres (P : Store → Prop) (a b c : Nat)
    (hP : ∀ s q w, P s → P (update_field_stats s q w a b))
    (stats : Store) (path : Path) (value : Json) (depth max_depth : Int)
    (h : P stats) : P (walk_value stats path value depth max_depth a b c) := by
  by_cases hd : depth > max_depth
  · unfold walk_value
    rw [if_pos hd]
    exact h
  · rw [walk_value_eq_walk_children stats path value depth max_depth a b c hd]
    have h' : P (update_field_stats stats path value a b) := hP _ _ _ h
    cases value with
    | obj kvs =>
        simp only [walk_children]
        split
        · exact h'
        · exact walk_fields_pres P a b c hP _ path kvs _ _ h'
    | arr xs =>
        simp only [walk_children]
        split
        · exact h'
        · exact walk_elems_pres P a b c hP _ _ xs c _ _ h'
    | null => simpa [walk_children] using h'
    | bool bb => simpa [walk_children] using h'
    | num n => simpa [walk_children] using h'
    | str s => simpa [walk_children] using h'

/-- A store property closed under arbitrary accumulator updates is
preserved by the object-member loop. -/
theorem walk_fields_pres (P : Store → Prop) (a b c : Nat)
    (hP : ∀ s q w, P s → P (update_field_stats s q w a b))
    (stats : Store) (path : Path) (kvs : List (List Char × Json))
    (depth max_depth : Int)
    (h : P stats) : P (walk_fields stats path kvs depth max_depth a b c) := by
  cases kvs with
  | nil =>
      simp only [walk_fields]
      exact h
  | cons kv rest =>
      obtain ⟨k, v⟩ := kv
      simp only [walk_fields]
      exact walk_fields_pres P a b c hP _ path rest _ _
        (walk_value_pres P a b c hP _ _ v _ _ h)

/-- A store property closed under arbitrary accumulator updates is
preserved by the array-element loop. -/
theorem walk_elems_pres (P : Store → Prop) (a b c : Nat)
    (hP : ∀ s q w, P s → P (update_field_stats s q w a b))
    (stats : Store) (child_path : Path) (xs : List Json) (remaining : Nat)
    (depth max_depth : Int)
    (h : P stats) : P (walk_elems stats child_path xs remaining depth max_depth a b c) := by
  cases xs with
  | nil =>
      cases remaining <;> (simp only [walk_elems]; exact h)
  | cons x rest =>
      cases remaining with
      | zero =>
          simp only [walk_elems]
          exact h
      | succ rr =>
          simp only [walk_elems]
          exact walk_elems_pres P a b c hP _ _ rest rr _ _
            (walk_value_pres P a b c hP _ _ x _ _ h)

end

/-- A store property closed under arbitrary accumulator updates is
preserved by walking a whole record. -/
theorem walk_record_pres (P : Store → Prop) (a b c : Nat) (max_depth : Int)
    (hP : ∀ s q w, P s → P (update_field_stats s q w a b)) :
    ∀ (record : Record) (stats : Store), P stats →
      P (walk_record stats record max_depth a b c) := by
  intro record
  induction record with
  | nil => intro stats h; exact h
  | cons kv rest ih =>
      intro stats h
      exact ih _ (walk_value_pres P a b c hP _ _ kv.2 _ _ h)

/-- A store property closed under arbitrary accumulator updates and true
of the empty store holds for the final accumulator store of the record
loop. -/
theorem profile_records_stats_pres (P : Store → Prop) (a b c : Nat)
    (records : List Record) (draws : Nat → ℚ) (sample_rate : ℚ) (max_depth : Int)
    (hP : ∀ s q w, P s → P (update_field_stats s q w a b)) (hinit : P []) :
    P (profile_records records draws sample_rate max_depth a b c).stats := by
  suffices hgen : ∀ (recs : List Record) (acc : ProfileAcc), P acc.stats →
      P ((recs.foldl (process_record sample_rate draws max_depth a b c) acc).stats) by
    exact hgen records _ hinit
  intro recs
  induction recs with
  | nil => intro acc h; exact h
  | cons r rest ih =>
      intro acc h
      rw [List.foldl_cons]
      apply ih
      unfold process_record
      dsimp only
      split
      · exact h
      · exact walk_record_pres P a b c max_depth hP r acc.stats h

/-! ### Count/coverage consistency -/

/-- Incrementing a counter raises the total of its values by exactly 1. -/
theorem incrCounter_sum (cnt : List (List Char × Nat)) (tag : List Char) :
    ((incrCounter cnt tag).map Prod.snd).sum = (cnt.map Prod.snd).sum + 1 := by
  induction cnt with
  | nil => rfl
  | cons e rest ih =>
      obtain ⟨t, n⟩ := e
      by_cases ht : t = tag
      · simp [incrCounter, ht]
        omega
      · simp [incrCounter, ht, ih]
        omega

/-- One observation keeps the count equal to the total of the type tally. -/
theorem observe_entry_count_types (st : FieldStats) (v : Json) (a b : Nat)
    (h : st.count = (st.types.map Prod.snd).sum) :
    (observe_entry st v a b).count = ((observe_entry st v a b).types.map Prod.snd).sum := by
  unfold observe_entry
  split <;>
    simp [incrCounter_sum, h, apply_ite FieldStats.count, apply_ite FieldStats.types]

/-- C5: for every corpus and every path in the final result, the reported
count equals the sum of the values of its types mapping, and the reported
coverage is count / total_records when total_records > 0 and 0.0 when
total_records is 0. -/
theorem count_coverage_consistency (records : List Record) (draws : Nat → ℚ)
    (sample_rate : ℚ) (max_depth : Int) (a b c : Nat) (p : Path) (r : FieldReport)
    (hr : lookupReport (profile_root records draws sample_rate max_depth a b c).keys p
            = some r) :
    r.count = (r.types.map Prod.snd).sum
    ∧ (0 < (profile_root records draws sample_rate max_depth a b c).total_records →
        r.coverage = (r.count : ℚ)
          / ((profile_root records draws sample_rate max_depth a b c).total_records : ℚ))
    ∧ ((profile_root records draws sample_rate max_depth a b c).total_records = 0 →
        r.coverage = 0) := by
  have hkeys : lookupReport (profile_root records draws sample_rate max_depth a b c).keys p
      = (lookupStats (profile_records records draws sample_rate max_depth a b c).stats p).map
          (finalize_field (profile_records records draws sample_rate max_depth a b c).total_records) :=
    lookupReport_map_finalize _ _ _
  rw [hkeys] at hr
  rcases Option.map_eq_some'.1 hr with ⟨fs, hfs, hrfl⟩
  have hstore : ∀ q fs', (q, fs')
      ∈ (profile_records records draws sample_rate max_depth a b c).stats →
      fs'.count = (fs'.types.map Prod.snd).sum := by
    apply profile_records_stats_pres
      (fun s => ∀ q fs', (q, fs') ∈ s → fs'.count = (fs'.types.map Prod.snd).sum) a b c
    · intro s q w hs
      exact update_field_stats_entry_pres
        (fun fs' => fs'.count = (fs'.types.map Prod.snd).sum) q w a b
        (fun st v hst => observe_entry_count_types st v a b hst) rfl hs
    · intro q fs' hmem
      simp at hmem
  have hinv : fs.count = (fs.types.map Prod.snd).sum :=
    hstore p fs (lookupStats_mem hfs)
  refine ⟨?_, ?_, ?_⟩
  · rw [← hrfl]
    simpa [finalize_field] using hinv
  · intro hpos
    rw [← hrfl]
    have htot : (profile_root records draws sample_rate max_depth a b c).total_records
        = (profile_records records draws sample_rate max_depth a b c).total_records := rfl
    rw [htot]
    have hpos' : 0 < (profile_records records draws sample_rate max_depth a b c).total_records :=
      hpos
    simp [finalize_field, hpos']
  · intro h0
    rw [← hrfl]
    have h0' : (profile_records records draws sample_rate max_depth a b c).total_records = 0 :=
      h0
    simp [finalize_field, h0']

/-- Witness for C5: one record `{"x": null}` profiled at rate 1. -/
theorem count_coverage_consistency_witness :
    ((lookupReport (profile_root [[(['x'], Json.null)]] (fun _ => 0) 1 3 5 200 5).keys
        ['x']).getD defaultFieldReport).count
      = (((lookupReport (profile_root [[(['x'], Json.null)]] (fun _ => 0) 1 3 5 200 5).keys
        ['x']).getD defaultFieldReport).types.map Prod.snd).sum
    ∧ ((lookupReport (profile_root [[(['x'], Json.null)]] (fun _ => 0) 1 3 5 200 5).keys
        ['x']).getD defaultFieldReport).coverage
      = ((((lookupReport (profile_root [[(['x'], Json.null)]] (fun _ => 0) 1 3 5 200 5).keys
        ['x']).getD defaultFieldReport).count : ℚ)
        / ((profile_root [[(['x'], Json.null)]] (fun _ => 0) 1 3 5 200 5).total_records : ℚ)) :=
  ⟨(count_coverage_consistency [[(['x'], Json.null)]] (fun _ => 0) 1 3 5 200 5 ['x'] _ rfl).1,
   (count_coverage_consistency [[(['x'], Json.null)]] (fun _ => 0) 1 3 5 200 5 ['x'] _ rfl).2.1
     (by decide)⟩

/-! ### String-length statistics invariant -/

/-- Observing a string routes exactly the string's length into the
string-length accumulator. -/
theorem observe_entry_sls_str (st : FieldStats) (s : List Char) (a b : Nat) :
    (observe_entry st (.str s) a b).string_length_stats
      = update_string_length_stats st.string_length_stats s.length := by
  simp [observe_entry, apply_ite FieldStats.string_length_stats]

/-- Observing a non-string value leaves the string-length accumulator
untouched. -/
theorem observe_entry_sls_nonstring (st : FieldStats) (v : Json) (a b : Nat)
    (hv : is_string_value v = false) :
    (observe_entry st v a b).string_length_stats = st.string_length_stats := by
  cases v
  case str s => simp [is_string_value] at hv
  all_goals simp [observe_entry, apply_ite FieldStats.string_length_stats]

/-- Folding one string length into the accumulator preserves the
strengthened invariant. -/
theorem update_sls_inv (s : StringLengthStats) (l : Nat) (h : sls_inv s) :
    sls_inv (update_string_length_stats s l) := by
  obtain ⟨⟨hmin, hmax, hbounds⟩, hzero⟩ := h
  unfold update_string_length_stats sls_inv sls_claim_inv
  cases hm : s.min with
  | none =>
      have hc : s.count = 0 := hmin.1 hm
      have hs0 : s.sum = 0 := hzero hc
      have hM : s.max = none := hmax.2 hc
      simp only [hm, hM]
      refine ⟨⟨by simp, by simp, ?_⟩, by omega⟩
      intro mn mx hmn hmx
      injection hmn with hmn
      injection hmx with hmx
      subst hmn
      subst hmx
      rw [hc, hs0]
      omega
  | some m =>
      have hc : s.count ≠ 0 := by
        intro h0
        rw [hmin.2 h0] at hm
        exact Option.noConfusion hm
      obtain ⟨M, hM⟩ : ∃ M, s.max = some M := by
        cases hMx : s.max with
        | none => exact absurd (hmax.1 hMx) hc
        | some M => exact ⟨M, rfl⟩
      obtain ⟨hmm, hlow, hup⟩ := hbounds m M hm hM
      simp only [hm, hM]
      refine ⟨⟨by split <;> simp, by split <;> simp, ?_⟩, by omega⟩
      intro mn mx hmn hmx
      have h1 : mn ≤ m ∧ mn ≤ l := by
        split at hmn <;> (injection hmn with e; subst e; omega)
      have h2 : M ≤ mx ∧ l ≤ mx := by
        split at hmx <;> (injection hmx with e; subst e; omega)
      have hmc : mn * s.count ≤ m * s.count := Nat.mul_le_mul_right _ h1.1
      have hMc : M * s.count ≤ mx * s.count := Nat.mul_le_mul_right _ h2.1
      refine ⟨by omega, ?_, ?_⟩
      · calc mn * (s.count + 1) = mn * s.count + mn := by ring
          _ ≤ m * s.count + l := Nat.add_le_add hmc h1.2
          _ ≤ s.sum + l := Nat.add_le_add_right hlow l
      · calc s.sum + l ≤ M * s.count + l := Nat.add_le_add_right hup l
          _ ≤ mx * s.count + mx := Nat.add_le_add hMc h2.2
          _ = mx * (s.count + 1) := by ring

/-- Looking up the just-updated path yields the freshly observed entry. -/
theorem lookupStats_setStats_self {stats : Store} {path : Path} {st : FieldStats}
    (h : (lookupStats stats path).isSome) :
    lookupStats (setStats stats path st) path = some st := by
  induction stats with
  | nil => simp [lookupStats] at h
  | cons e rest ih =>
      obtain ⟨p, fs⟩ := e
      by_cases hp : p = path
      · simp [setStats, lookupStats, hp]
      · simp only [setStats, lookupStats, if_neg hp] at h ⊢
        exact ih h

/-- A key absent from the store is found at the end after an append. -/
theorem lookupStats_append_self {stats : Store} {path : Path} {st : FieldStats}
    (h : lookupStats stats path = none) :
    lookupStats (stats ++ [(path, st)]) path = some st := by
  induction stats with
  | nil => simp [lookupStats]
  | cons e rest ih =>
      obtain ⟨p, fs⟩ := e
      by_cases hp : p = path
      · simp [lookupStats, hp] at h
      · simp only [List.cons_append, lookupStats, if_neg hp] at h ⊢
        exact ih h

/-- After an accumulator update, the updated path holds exactly the
observed entry. -/
theorem lookupStats_update_self (stats : Store) (path : Path) (value : Json)
    (a b : Nat) :
    lookupStats (update_field_stats stats path value a b) path
      = some (observe_entry (ensure_field_stats stats path) value a b) := by
  unfold update_field_stats
  cases hl : lookupStats stats path with
  | some st0 => exact lookupStats_setStats_self (by simp [hl])
  | none => exact lookupStats_append_self hl

/-- C10 (corrected): the accumulator update preserves the claimed
string-length-stats predicate strengthened with "a zero counter forces a
zero sum" (the literal predicate alone is not inductive, see the
counterexample); and an observation of a non-string value leaves the
updated path's string-length stats exactly what `ensure_field_stats`
provides (the previous min/max/sum/count when the path existed). -/
theorem sls_invariant_preservation (stats : Store) (path : Path) (value : Json)
    (a b : Nat) :
    ((∀ q fs, (q, fs) ∈ stats → sls_inv fs.string_length_stats) →
      ∀ q fs, (q, fs) ∈ update_field_stats stats path value a b →
        sls_inv fs.string_length_stats)
    ∧ (is_string_value value = false →
        (lookupStats (update_field_stats stats path value a b) path).map
            FieldStats.string_length_stats
          = some (ensure_field_stats stats path).string_length_stats) := by
  constructor
  · intro h
    apply update_field_stats_entry_pres (fun fs => sls_inv fs.string_length_stats)
    · intro st v hst
      cases v
      case str s =>
        rw [observe_entry_sls_str]
        exact update_sls_inv _ _ hst
      case null => rw [observe_entry_sls_nonstring st Json.null a b rfl]; exact hst
      case bool bb => rw [observe_entry_sls_nonstring st (Json.bool bb) a b rfl]; exact hst
      case num n => rw [observe_entry_sls_nonstring st (Json.num n) a b rfl]; exact hst
      case arr xs => rw [observe_entry_sls_nonstring st (Json.arr xs) a b rfl]; exact hst
      case obj kvs => rw [observe_entry_sls_nonstring st (Json.obj kvs) a b rfl]; exact hst
    · simp [emptyFieldStats, sls_inv, sls_claim_inv]
    · exact h
  · intro hv
    rw [lookupStats_update_self, Option.map_some',
      observe_entry_sls_nonstring _ _ _ _ hv]

/-- Counterexample to the literal C10: the predicate as claimed holds of
the accumulator state (min = max = null, count = 0, sum = 5), yet after one
string observation of length 2 the bound sum ≤ max * count fails
(7 > 2 * 1) — so the literal predicate is not preserved. -/
theorem sls_claim_predicate_not_preserved_cex :
    sls_claim_inv { min := none, max := none, sum := 5, count := 0 }
    ∧ ((lookupStats (update_field_stats
          [(['p'], { emptyFieldStats with string_length_stats :=
              { min := none, max := none, sum := 5, count := 0 } })]
          ['p'] (.str ['a','b']) 5 200) ['p']).map FieldStats.string_length_stats
        = some { min := some 2, max := some 2, sum := 7, count := 1 })
    ∧ ¬ sls_claim_inv { min := some 2, max := some 2, sum := 7, count := 1 } := by
  refine ⟨⟨by simp, by simp, ?_⟩, by decide, ?_⟩
  · intro mn mx hmn _
    exact Option.noConfusion hmn
  · intro hcl
    obtain ⟨_, _, h3⟩ := hcl
    obtain ⟨_, _, hup⟩ := h3 2 2 rfl rfl
    simp at hup

/-- Witness for C10: one string observation on the empty store, and one
null observation (string stats left at the freshly ensured defaults). -/
theorem sls_invariant_preservation_witness :
    sls_inv ((lookupStats (update_field_stats [] ['p'] (Json.str ['h','i']) 5 200)
        ['p']).getD emptyFieldStats).string_length_stats
    ∧ ((lookupStats (update_field_stats [] ['p'] Json.null 5 200) ['p']).map
          FieldStats.string_length_stats
        = some (ensure_field_stats [] ['p']).string_length_stats) :=
  ⟨(sls_invariant_preservation [] ['p'] (Json.str ['h','i']) 5 200).1 (by simp) ['p'] _
     (lookupStats_mem rfl),
   (sls_invariant_preservation [] ['p'] Json.null 5 200).2 rfl⟩

end Agtrace
